import Mathlib

/-!
Shallow embedding of `pkg/grammar/grammar.go` from inspirit941/convert-jenkinsfile.

The Go code is string manipulation over ASCII pipeline text.  Lean's own
`String` functions (`splitOn`, `isPrefixOf`, ...) do not reduce inside the
kernel, so every Go string primitive used by the source is re-implemented
here over `List Char` with structural (or fuel-based, with provably
sufficient fuel) recursion, and wrapped into `String`-typed functions whose
names follow the Go standard library functions they model.  All inputs in
this development are ASCII, so byte positions in the Go code coincide with
character positions here.
-/

/-! ## Go string primitives -/

/-- The characters of a string (Go strings are iterated by byte; all strings
in this development are ASCII, where bytes and characters coincide). -/
def chars (x : String) : List Char := x.toList

/-- Rebuild a string from characters. -/
def ofChars (l : List Char) : String := String.mk l

/-- Split on a single character, keeping empty fields — the semantics of Go
`strings.Split(s, sep)` for a one-character separator (the only separator,
`"\n"`, that the source ever splits on). -/
def splitChar (sep : Char) (l : List Char) : List (List Char) :=
  l.foldr
    (fun c r =>
      if c = sep then [] :: r
      else
        match r with
        | [] => [[c]]
        | h :: t => (c :: h) :: t)
    [[]]

/-- Go `strings.Split(x, "\n")`. -/
def goSplitNewline (x : String) : List String :=
  (splitChar '\n' (chars x)).map ofChars

/-- Go `strings.Join(xs, sep)`. -/
def goJoin (sep : String) : List String → String
  | [] => ""
  | [x] => x
  | x :: rest => x ++ sep ++ goJoin sep rest

/-- Concatenation of a list of strings (Go repeated `+`/`append`). -/
def goConcat (xs : List String) : String := goJoin "" xs

/-- Replace every non-overlapping occurrence of `pat` (leftmost first), as Go
`strings.ReplaceAll`.  The fuel is the input length: every recursive call
consumes at least one character, so the `0` case with a nonempty list is
unreachable when started with `l.length`. -/
def replaceAllFuel (pat rep : List Char) : Nat → List Char → List Char
  | _, [] => []
  | 0, l => l
  | n + 1, c :: rest =>
    if pat.isPrefixOf (c :: rest) && !pat.isEmpty then
      rep ++ replaceAllFuel pat rep n ((c :: rest).drop pat.length)
    else
      c :: replaceAllFuel pat rep n rest

/-- Go `strings.ReplaceAll(x, pat, rep)`. -/
def goReplaceAll (x pat rep : String) : String :=
  ofChars (replaceAllFuel (chars pat) (chars rep) (chars x).length (chars x))

/-- Replace the first occurrence of `pat`, as Go `strings.Replace(x, pat, rep, 1)`. -/
def replaceFirstCh (pat rep : List Char) : List Char → List Char
  | [] => []
  | c :: rest =>
    if pat.isPrefixOf (c :: rest) && !pat.isEmpty then
      rep ++ (c :: rest).drop pat.length
    else
      c :: replaceFirstCh pat rep rest

/-- Go `strings.Replace(x, pat, rep, 1)`. -/
def goReplaceFirst (x pat rep : String) : String :=
  ofChars (replaceFirstCh (chars pat) (chars rep) (chars x))

/-- Substring search, as Go `strings.Contains` (for nonempty `sub`). -/
def containsSub : List Char → List Char → Bool
  | [], sub => sub.isEmpty
  | c :: rest, sub => sub.isPrefixOf (c :: rest) || containsSub rest sub

/-- Go `strings.Contains(x, sub)`. -/
def goContains (x sub : String) : Bool := containsSub (chars x) (chars sub)

/-- Go `strings.HasPrefix(x, pre)`. -/
def goStartsWith (x pre : String) : Bool := (chars pre).isPrefixOf (chars x)

/-- Go `strings.TrimPrefix` over characters. -/
def listTrimLeading (l pre : List Char) : List Char :=
  if pre.isPrefixOf l then l.drop pre.length else l

/-- Go `strings.Trim(x, cutset)`: remove leading and trailing characters that
appear in `cutset`. -/
def goTrimChars (x cutset : String) : String :=
  let cut := chars cutset
  let l := (chars x).dropWhile (fun c => cut.contains c)
  ofChars ((l.reverse.dropWhile (fun c => cut.contains c)).reverse)

/-- The white-space characters Go `strings.TrimSpace` strips (the ASCII ones;
no other white space occurs in this development). -/
def goWhitespace : List Char := [' ', '\t', '\n', '\x0b', '\x0c', '\r']

/-- Go `strings.TrimSpace(x)`. -/
def goTrimSpace (x : String) : String :=
  let l := (chars x).dropWhile (fun c => goWhitespace.contains c)
  ofChars ((l.reverse.dropWhile (fun c => goWhitespace.contains c)).reverse)

/-- Go `strings.Repeat(x, n)`. -/
def goRepeatStr (x : String) : Nat → String
  | 0 => ""
  | n + 1 => x ++ goRepeatStr x n

/-- Decimal digits of a positive number, fuel-driven (fuel `n + 1` always
suffices since `n / 10 < n` for `n > 0`). -/
def natDigitsFuel : Nat → Nat → List Char
  | 0, _ => []
  | _ + 1, 0 => []
  | fuel + 1, n => natDigitsFuel fuel (n / 10) ++ [Char.ofNat (48 + n % 10)]

/-- Decimal rendering of a natural number, as Go `fmt` renders integers. -/
def goNatString (n : Nat) : String :=
  if n = 0 then "0" else ofChars (natDigitsFuel (n + 1) n)

/-! ## Constants from the source -/

def indentUnit : String := "  "
def newlinePlaceholder : String := "^^NEWLINE^^"
def backtickPlaceholder : String := "^^BACKTICK^^"
def doubleQuotePlaceholder : String := "^^DOUBLEQUOTE^^"
def singleQuotePlaceholder : String := "^^SINGLEQUOTE^^"
def multilineDoubleQuotePlaceholder : String := "^^MULTILINEDOUBLE^^"
def multilineSingleQuotePlaceholder : String := "^^MULTILINESINGLE^^"

/-- Environment variables removed from the Jenkinsfile (`unusedEnvVars`). -/
def unusedEnvVars : List String :=
  ["PREVIEW_VERSION", "APP_NAME", "DOCKER_REGISTRY", "DOCKER_REGISTRY_ORG"]

/-- Steps from setVersion and setup that should be removed (`stepsToRemove`). -/
def stepsToRemove : List String :=
  ["git checkout master",
   "checkout scm",
   "git config --global credential.helper store",
   "jx step git credentials",
   "echo \\$(jx-release-version) > VERSION",
   "mvn versions:set -DnewVersion=\\$(cat VERSION)",
   "jx step tag --version \\$(cat VERSION)"]

/-- `indentLine` from the source: blank lines stay unindented. -/
def indentLine (line : String) (count : Nat) : String :=
  if goTrimSpace line = "" then line else goRepeatStr indentUnit count ++ line

/-! ## Environment entries -/

/-- `ModelEnvironmentEntryValue`: either a string literal or a
`credentials("...")` reference; the Go struct holds two pointers of which a
parsed value sets at most one. -/
structure ModelEnvironmentEntryValue where
  StringValue : Option String
  Credential : Option String
deriving DecidableEq

/-- `ModelEnvironmentEntryValue.ToString`. -/
def ModelEnvironmentEntryValue.ToString (m : ModelEnvironmentEntryValue) : String :=
  match m.StringValue with
  | some s => s
  | none =>
    match m.Credential with
    | some c => c
    | none => "n/a"

/-- `ModelEnvironmentEntry`: a `KEY = value` line of an environment block. -/
structure ModelEnvironmentEntry where
  Key : String
  Value : ModelEnvironmentEntryValue
deriving DecidableEq

/-- `ModelEnvironmentEntry.ToEnv`.  The Go function checks
`m.Value.StringValue != nil` only conjoined with the `$`-test and then
dereferences `*m.Value.StringValue` unconditionally: when the value is a
credential reference (`StringValue == nil`) and the key is not in
`unusedEnvVars`, the dereference is a nil-pointer panic.  `none` models that
panic; the single-key maps the Go version returns are modelled as key/value
pairs. -/
def ModelEnvironmentEntry.ToEnv (m : ModelEnvironmentEntry) :
    Option (List (String × String) × Bool) :=
  if unusedEnvVars.contains m.Key then some ([], false)
  else if (match m.Value.StringValue with
           | some s => goContains s "$"
           | none => false) then
    some ([], true)
  else
    match m.Value.StringValue with
    | some s => some ([(m.Key, s)], false)
    | none => none

/-- Models `sigs.k8s.io/yaml.Marshal` applied to a `[]map[string]string` of
single-key maps: one `- key: value` line per map, each ending in a newline.
Faithful for keys and values that YAML emits as unquoted plain scalars,
which is the only form this development exercises; the marshal itself cannot
fail on such input, so no error case is modelled. -/
def yamlMarshalEnvList (envVars : List (String × String)) : String :=
  goConcat (envVars.map (fun kv => "- " ++ kv.1 ++ ": " ++ kv.2 ++ "\n"))

/-- `toEnvYamlLines` accumulator loop: builds the comment lines for
untranslatable variables and the converted key/value list; `none` propagates
the nil-pointer panic from `ToEnv`. -/
def toEnvYamlLinesAux :
    List ModelEnvironmentEntry → List String → List (String × String) →
    Option (List String × List (String × String))
  | [], invalidVars, envVars => some (invalidVars, envVars)
  | e :: rest, invalidVars, envVars =>
    match e.ToEnv with
    | none => none
    | some (convertedVars, isInvalid) =>
      if isInvalid then
        toEnvYamlLinesAux rest
          (invalidVars ++
            ["# The variable '" ++ e.Key ++ "' has the value '" ++
              e.Value.ToString ++ "', which cannot be converted."])
          envVars
      else
        toEnvYamlLinesAux rest invalidVars (envVars ++ convertedVars)

/-- `toEnvYamlLines`. -/
def toEnvYamlLines (modelVars : List ModelEnvironmentEntry) : Option (List String) :=
  match toEnvYamlLinesAux modelVars [] [] with
  | none => none
  | some (invalidVars, envVars) =>
    if envVars.isEmpty then some invalidVars
    else
      some (invalidVars ++ goSplitNewline (goTrimSpace (yamlMarshalEnvList envVars)))

/-- `containsRealEnvLines`: true when some env line is not a comment. -/
def containsRealEnvLines (lines : List String) : Bool :=
  lines.any (fun l => !(goStartsWith l "#"))

/-! ## Step values and arguments -/

/-- `Value`: a step argument value.  The Go struct holds four pointers
(`String *string`, `Number *float64`, `Int *int64`, `Bool *bool`) of which a
successful parse sets at most one; `nothing` models the all-nil struct (which
the grammar produces, e.g., for the literal `false`, whose alternative
matches without capturing).  For `number` and `int` the code never reads the
pointed-to value: `Value.ToString` formats the *pointer* with the `%d` verb,
and per the `fmt` documentation ("The %b, %d, %o, %x and %X verbs also work
with pointers, formatting the value exactly as if it were an integer") that
prints the machine address of the allocation.  The `addr` field models that
address; `int` additionally records the parsed integer, which no code path
ever consumes. -/
inductive Value where
  | str (s : String)
  | number (addr : Nat)
  | int (val : Int) (addr : Nat)
  | bool (b : Bool)
  | nothing
deriving DecidableEq

/-- `Value.ToString`.  The `number` and `int` cases print the pointer address
in decimal (Go `fmt.Sprintf("%d", v.Number)` / `fmt.Sprintf("%d", v.Int)` on
the pointer fields); the `bool` case prints the dereferenced value
(`fmt.Sprintf("%t", *v.Bool)`); the all-nil case yields `n/a`. -/
def Value.ToString : Value → String
  | .str s => "\"" ++ s ++ "\""
  | .number addr => goNatString addr
  | .int _ addr => goNatString addr
  | .bool b => if b then "true" else "false"
  | .nothing => "n/a"

/-- `ModelStepNamedArg`: a `key: value` argument.  The grammar annotation
`":" @@` makes the value mandatory, so a parsed named argument always
carries one; it is therefore embedded without an option, and the source's
`a.Named.Value != nil` tests are embedded as always true. -/
structure ModelStepNamedArg where
  Key : String
  Value : Value
deriving DecidableEq

/-- `ModelStepNamedArg.ToString`. -/
def ModelStepNamedArg.ToString (m : ModelStepNamedArg) : String :=
  "key: " ++ m.Key ++ ", val: " ++ m.Value.ToString

/-- `ModelStepArg`: either a bare value or a named argument (two pointers in
Go, at most one set by a parse). -/
structure ModelStepArg where
  Unnamed : Option Value
  Named : Option ModelStepNamedArg
deriving DecidableEq

/-- `ModelStepArg.ToString`. -/
def ModelStepArg.ToString (m : ModelStepArg) : String :=
  match m.Unnamed with
  | some v => v.ToString
  | none =>
    match m.Named with
    | some na => na.ToString
    | none => "(none)"

/-- `ModelStep`: a step with a name, arguments and nested steps. -/
inductive ModelStep where
  | mk (Name : String) (Args : List ModelStepArg) (NestedSteps : List ModelStep)

def ModelStep.Name : ModelStep → String
  | .mk n _ _ => n

def ModelStep.Args : ModelStep → List ModelStepArg
  | .mk _ a _ => a

def ModelStep.NestedSteps : ModelStep → List ModelStep
  | .mk _ _ ns => ns

/-- `removeQuotesAndTrim`: Go `strings.Trim(in, "\"")`. -/
def removeQuotesAndTrim (x : String) : String := goTrimChars x "\""

/-- `ModelStep.getArg`: the single argument rendered and stripped of double
quotes, or `""` when there is not exactly one argument. -/
def ModelStep.getArg (m : ModelStep) : String :=
  match m.Args with
  | [a] => removeQuotesAndTrim a.ToString
  | _ => ""

/-- `ModelStep.shouldRemove`: single-argument `sh` steps whose argument text
matches the fixed removal list are dropped. -/
def ModelStep.shouldRemove (m : ModelStep) : Bool :=
  if m.Args.length = 1 && m.Name = "sh" then
    match m.Args with
    | [a] => stepsToRemove.any (fun n => goTrimChars a.ToString "\"" = n)
    | _ => false
  else false

/-- `unescapeMultiline`: undo the newline/backslash/backtick escaping. -/
def unescapeMultiline (escaped : String) : String :=
  let u := goReplaceAll escaped newlinePlaceholder "\n"
  let u := goReplaceAll u "\\\\" "\\"
  goReplaceAll u backtickPlaceholder "`"

/-- `toCurlyStringFromEscaped`: wrap the unescaped text in curly braces. -/
def toCurlyStringFromEscaped (escaped : String) : String :=
  "\x7b" ++ unescapeMultiline escaped ++ "\x7d"

/-- `ModelStep.toOriginalGroovy`: reproduce the step's original call syntax.
A both-nil argument cannot be produced by the grammar (one alternative must
match); in the unreachable single-argument both-nil case Go would
dereference a nil `Named` pointer, embedded here with a default. -/
def ModelStep.toOriginalGroovy (m : ModelStep) : String :=
  let lines : List String :=
    if m.NestedSteps.length = 0 then
      if m.Args.length = 0 then [m.Name ++ "()"]
      else if m.Args.length = 1 then
        match m.Args with
        | [arg] =>
          match arg.Unnamed with
          | some _ =>
            if goContains m.getArg newlinePlaceholder then
              [m.Name ++ " " ++ toCurlyStringFromEscaped m.getArg]
            else
              [m.Name ++ " " ++ m.getArg]
          | none =>
            let na := arg.Named.getD ⟨"", Value.nothing⟩
            [m.Name ++ "(" ++ na.Key ++ ": " ++ na.Value.ToString ++ ")"]
        | _ => []
      else
        let argStrings := m.Args.filterMap (fun a =>
          match a.Unnamed with
          | some v => some v.ToString
          | none =>
            match a.Named with
            | some na => some (na.Key ++ ": " ++ na.Value.ToString)
            | none => none)
        [m.Name ++ "(" ++ goJoin ", " argStrings ++ ")"]
    else []
  goJoin "\n" lines

/-! ## The `$(cat ... VERSION)` rewriting of `getJxArg` -/

/-- The literal opening of the regular expression
`\\\$\(cat .*?VERSION\)`: a backslash, a dollar, `(cat` and a space. -/
def catDollarOpen : List Char := chars "\\$(cat "

/-- The lazy `.*?VERSION\)` tail: consume the shortest prefix that ends with
`VERSION)`, failing on a newline in the gap (`.` does not match newlines).
Returns the remainder after `VERSION)` on success. -/
def findCatClose : List Char → Option (List Char)
  | [] => none
  | c :: rest =>
    if (chars "VERSION)").isPrefixOf (c :: rest) then
      some ((c :: rest).drop (chars "VERSION)").length)
    else if c = '\n' then none
    else findCatClose rest

/-- `regexp.MustCompile("\\\\\\$\\(cat .*?VERSION\\)").ReplaceAllString`,
scanning left to right, replacing non-overlapping matches with
`${inputs.params.version}` (fuel = input length, sufficient since every step
consumes at least one character). -/
def replaceCatDollarFuel : Nat → List Char → List Char
  | _, [] => []
  | 0, l => l
  | n + 1, c :: rest =>
    if catDollarOpen.isPrefixOf (c :: rest) then
      match findCatClose ((c :: rest).drop catDollarOpen.length) with
      | some rem => chars "$\x7binputs.params.version\x7d" ++ replaceCatDollarFuel n rem
      | none => c :: replaceCatDollarFuel n rest
    else c :: replaceCatDollarFuel n rest

def replaceCatDollar (x : String) : String :=
  ofChars (replaceCatDollarFuel (chars x).length (chars x))

/-- `toMultilineQuote`: an argument carrying a multiline placeholder becomes
a `|` block scalar followed by the trimmed lines; anything else is passed
through as a single line. -/
def toMultilineQuote (escaped : String) : List String :=
  if goContains escaped multilineSingleQuotePlaceholder ||
      goContains escaped multilineDoubleQuotePlaceholder then
    let unescaped := goReplaceAll escaped multilineDoubleQuotePlaceholder ""
    let unescaped := goReplaceAll unescaped multilineSingleQuotePlaceholder ""
    ["|"] ++ (goSplitNewline (unescapeMultiline unescaped)).map goTrimSpace
  else [escaped]

/-- `ModelStep.getJxArg`: rewrite version idioms, restore quotes from their
placeholders and render (possibly) as a multiline block. -/
def ModelStep.getJxArg (m : ModelStep) : List String :=
  let rawArg := m.getArg
  let fixedArg := replaceCatDollar rawArg
  let fixedArg := goReplaceAll fixedArg "`cat VERSION`" "$\x7binputs.params.version\x7d"
  let fixedArg := goReplaceAll fixedArg doubleQuotePlaceholder "\""
  let fixedArg := goReplaceAll fixedArg singleQuotePlaceholder "'"
  toMultilineQuote fixedArg

/-! ## Stages and their entries -/

/-- `UnsupportedModelBlock`: an escaped, unmodeled construct. -/
structure UnsupportedModelBlock where
  Name : String
  Value : String
deriving DecidableEq

/-- `ModelAgent`. -/
structure ModelAgent where
  Label : String
deriving DecidableEq

/-- `ModelWhen`: a `when` block — a `branch` condition or unsupported blocks. -/
structure ModelWhen where
  Branch : String
  Unsupported : List UnsupportedModelBlock
deriving DecidableEq

/-- `ModelPostEntry`: a post condition with its steps. -/
structure ModelPostEntry where
  Kind : String
  Steps : List ModelStep

/-- `ModelPostEntry.isDefaultCleanWs`: exactly `always { cleanWs() }`. -/
def ModelPostEntry.isDefaultCleanWs (m : ModelPostEntry) : Bool :=
  if m.Kind = "always" && m.Steps.length = 1 then
    match m.Steps with
    | [s] => s.Name = "cleanWs" && s.Args.length = 0
    | _ => false
  else false

/-- `ModelStageEntry`: the directives that may appear inside a stage; the Go
struct holds one field per alternative, a parse populating one of them. -/
structure ModelStageEntry where
  Agent : Option ModelAgent
  Environment : List ModelEnvironmentEntry
  Steps : List ModelStep
  Post : List ModelPostEntry
  When : Option ModelWhen
  Unsupported : List UnsupportedModelBlock

/-- `ModelStage`. -/
structure ModelStage where
  Name : String
  Entries : List ModelStageEntry

/-- The `for ... if len(proj e) > 0 return proj e ... return nil` lookup shape
shared by all the slice-typed accessors in the source (nil is `[]` here). -/
def firstWithLen (proj : α → List β) : List α → List β
  | [] => []
  | e :: rest => if (proj e).length > 0 then proj e else firstWithLen proj rest

/-- The same lookup shape for the pointer-typed (`Option`) accessors. -/
def firstWithSome (proj : α → Option β) : List α → Option β
  | [] => none
  | e :: rest =>
    match proj e with
    | some v => some v
    | none => firstWithSome proj rest

def ModelStage.getEnvironment (m : ModelStage) : List ModelEnvironmentEntry :=
  firstWithLen ModelStageEntry.Environment m.Entries

def ModelStage.getUnsupported (m : ModelStage) : List UnsupportedModelBlock :=
  firstWithLen ModelStageEntry.Unsupported m.Entries

def ModelStage.getSteps (m : ModelStage) : List ModelStep :=
  firstWithLen ModelStageEntry.Steps m.Entries

def ModelStage.getWhen (m : ModelStage) : Option ModelWhen :=
  firstWithSome ModelStageEntry.When m.Entries

def ModelStage.getPost (m : ModelStage) : List ModelPostEntry :=
  firstWithLen ModelStageEntry.Post m.Entries

/-! ## Step flattening and rendering -/

/-- `imageFromContainerStep`: a single argument names the image; otherwise
the first `name:` named argument does (its value pointer is always non-nil
here, see `ModelStepNamedArg`); otherwise the default `maven`. -/
def imageFromContainerStep (step : ModelStep) : String :=
  if step.Args.length = 1 then step.getArg
  else
    match step.Args.findSome? (fun a =>
      match a.Named with
      | some na => if na.Key = "name" then some na else none
      | none => none) with
    | some na => removeQuotesAndTrim na.Value.ToString
    | none => "maven"

/-- `stepDirAndImage`: a leaf step with its inherited directory and image. -/
structure stepDirAndImage where
  step : ModelStep
  dir : String
  image : String

mutual
/-- `ModelStep.nestedStepsWithDirAndImage`: flatten the step tree depth
first, threading the working directory (set by `dir` wrappers, trimmed of
`.` and `/`) and the image (set by `container` wrappers). -/
def ModelStep.nestedStepsWithDirAndImage : ModelStep → String → String → List stepDirAndImage
  | .mk n args nested, baseDir, baseImage =>
    if nested.isEmpty then
      [⟨.mk n args nested, baseDir, baseImage⟩]
    else
      let ctx :=
        if n = "dir" then
          (goTrimChars (ModelStep.getArg (.mk n args nested)) "./", baseImage)
        else if n = "container" then
          (baseDir, imageFromContainerStep (.mk n args nested))
        else (baseDir, baseImage)
      nestedListDirAndImage nested ctx.1 ctx.2

/-- The `for _, s := range m.NestedSteps` loop of the flattening. -/
def nestedListDirAndImage : List ModelStep → String → String → List stepDirAndImage
  | [], _, _ => []
  | s :: rest, d, i => s.nestedStepsWithDirAndImage d i ++ nestedListDirAndImage rest d i
end

/-- `linesForInvalidStep`: comment block (with the specific reason when one
is given), reproduced original call and the forced-failure run line. -/
def linesForInvalidStep (step : ModelStep) (reason : String) (ind : Nat) : List String :=
  [indentLine ("# The Jenkins Pipeline step " ++ step.Name ++ " cannot be translated directly.") (ind + 2)]
  ++ (if reason ≠ "" then [indentLine ("# " ++ reason) (ind + 2)]
      else [indentLine "# You may want to consider adding a shell script to your repository that replicates its behavior." (ind + 2)])
  ++ [indentLine "# Original step from Jenkinsfile:" (ind + 2)]
  ++ (goSplitNewline step.toOriginalGroovy).map (fun l => indentLine ("# " ++ l) (ind + 2))
  ++ [indentLine ("run: echo 'Invalid step " ++ step.Name ++ ", failing' && exit 1") (ind + 2)]

/-- The body of the `for _, s := range stepsToInclude` loop in
`toImageAndSteps`: the lines for one included step and whether it raised a
conversion issue.  `getJxArg` never returns an empty list (`toMultilineQuote`
always yields at least one line), so the dead `[]` branch returns nothing. -/
def renderIncludedStep (s : stepDirAndImage) (image : String) (ind : Nat) :
    List String × Bool :=
  if s.step.Name = "sh" || s.step.Name = "echo" then
    if s.step.Args.length ≠ 1 then
      (linesForInvalidStep s.step "Additional parameters to the Jenkins Pipeline sh step are not supported" ind, true)
    else
      match s.step.Args with
      | [arg] =>
        match arg.Unnamed with
        | none =>
          (linesForInvalidStep s.step "Named parameters to the Jenkins Pipeline sh step are not supported" ind, true)
        | some _ =>
          let jxArgs := s.step.getJxArg
          let runLines :=
            if s.step.Name = "echo" then
              [indentLine ("run: " ++ s.step.Name ++ " " ++ goJoin " " jxArgs) (ind + 2)]
            else
              match jxArgs with
              | [] => []
              | a0 :: restArgs =>
                [indentLine ("run: " ++ a0) (ind + 2)]
                ++ restArgs.map (fun argLine => indentLine argLine (ind + 3))
          (runLines
            ++ (if s.image ≠ image then [indentLine ("image: " ++ s.image) ind] else [])
            ++ (if s.dir ≠ "" then [indentLine ("working-directory: ./" ++ s.dir) (ind + 2)] else []),
           false)
      | _ => ([], false)
  else
    (linesForInvalidStep s.step "" ind, true)

/-- The loop over the included steps: each step's nonempty line group is
joined with newlines into one entry, and conversion issues accumulate. -/
def renderIncludedSteps : List stepDirAndImage → String → Nat → List String × Bool
  | [], _, _ => ([], false)
  | s :: rest, image, ind =>
    let single := renderIncludedStep s image ind
    let rec' := renderIncludedSteps rest image ind
    ((if single.1.isEmpty then [] else [goJoin "\n" single.1]) ++ rec'.1,
     single.2 || rec'.2)

/-- `ModelStage.toImageAndSteps`: resolve the stage image, flatten, filter
and render the steps, and report whether any conversion issue arose. -/
def ModelStage.toImageAndSteps (m : ModelStage) (ind : Nat) :
    String × List String × Bool :=
  let steps := m.getSteps
  let image :=
    match steps with
    | s0 :: _ => if s0.Name = "container" then imageFromContainerStep s0 else "maven"
    | [] => "maven"
  let baseSteps := nestedListDirAndImage steps "" image
  let stepsToInclude := baseSteps.filter (fun s => !s.step.shouldRemove)
  let rendered := renderIncludedSteps stepsToInclude image ind
  (image, rendered.1, rendered.2)

/-! ## The pipeline model and YAML generation -/

/-- `ModelPipelineEntry`: the directives that can appear directly inside the
`pipeline` block. -/
structure ModelPipelineEntry where
  Agent : Option ModelAgent
  Environment : List ModelEnvironmentEntry
  Stages : List ModelStage
  Post : List ModelPostEntry
  Unsupported : List UnsupportedModelBlock

/-- `Model`: the parsed pipeline. -/
structure Model where
  Pipeline : List ModelPipelineEntry

def Model.getPost (m : Model) : List ModelPostEntry :=
  firstWithLen ModelPipelineEntry.Post m.Pipeline

def Model.getEnvironment (m : Model) : List ModelEnvironmentEntry :=
  firstWithLen ModelPipelineEntry.Environment m.Pipeline

def Model.getStages (m : Model) : List ModelStage :=
  firstWithLen ModelPipelineEntry.Stages m.Pipeline

def Model.getUnsupported (m : Model) : List UnsupportedModelBlock :=
  firstWithLen ModelPipelineEntry.Unsupported m.Pipeline

/-- Accumulator of the stage loop in `Model.ToYaml`: the two job-group
partitions, the warning lines emitted so far and the issue flag. -/
structure StageLoopAcc where
  releaseStages : List ModelStage
  prStages : List ModelStage
  lines : List String
  conversionIssues : Bool

/-- The `when`-dispatch part of the stage loop (grammar.go lines 194-206): a
stage with no `when` joins both groups, `master` joins the release group, a
`PR-` branch joins the pull-request group, and an unsupported condition only
emits warning comments — the issue flag is not touched on this path. -/
def stageWhenDispatch (acc : StageLoopAcc) (s : ModelStage) : StageLoopAcc :=
  match s.getWhen with
  | none =>
    { acc with releaseStages := acc.releaseStages ++ [s], prStages := acc.prStages ++ [s] }
  | some w =>
    if w.Branch = "master" then
      { acc with releaseStages := acc.releaseStages ++ [s] }
    else if goStartsWith w.Branch "PR-" then
      { acc with prStages := acc.prStages ++ [s] }
    else if w.Unsupported.length > 0 then
      { acc with lines := acc.lines ++ w.Unsupported.map (fun u =>
          indentLine ("# This Jenkinsfile contains the unsupported when condition '" ++ u.Name ++
            "' on stage '" ++ s.Name ++ "'. The stage containing it will not be converted.") 2) }
    else acc

/-- The stage-level `post`/unsupported warnings of the stage loop
(grammar.go lines 208-219): each sets the issue flag and emits a comment. -/
def stageWarnNotes (acc : StageLoopAcc) (s : ModelStage) : StageLoopAcc :=
  let acc :=
    if (s.getPost).length > 0 then
      { acc with conversionIssues := true,
                 lines := acc.lines ++ [indentLine ("# The Jenkinsfile contains a post directive for the stage '" ++
                   s.Name ++ "'. This is not converted.") 2] }
    else acc
  { acc with conversionIssues := acc.conversionIssues || (s.getUnsupported).length > 0,
             lines := acc.lines ++ (s.getUnsupported).map (fun u =>
               indentLine ("# The Jenkinsfile contains the " ++ u.Name ++ " directive for the stage '" ++
                 s.Name ++ "'. This is not converted.") 2) }

/-- One iteration of the stage loop. -/
def stageLoopStep (acc : StageLoopAcc) (s : ModelStage) : StageLoopAcc :=
  stageWarnNotes (stageWhenDispatch acc s) s

/-- The `envVars` map updates of one stage in `prOrReleasePipelineAsYAML`:
insert each stage environment entry whose key is new and nonempty, keeping
insertion order (the list models the map's contents). -/
def dedupStageEnvStep (envVars : List ModelEnvironmentEntry) (s : ModelStage) :
    List ModelEnvironmentEntry :=
  (s.getEnvironment).foldl
    (fun acc env =>
      if acc.all (fun e => e.Key ≠ env.Key) && env.Key ≠ "" then acc ++ [env] else acc)
    envVars

/-- Accumulator of the stage loop in `prOrReleasePipelineAsYAML`. -/
structure PrLoopAcc where
  lines : List String
  conversionIssues : Bool
  envVars : List ModelEnvironmentEntry
  stepLines : List String
  needsPhase : List String
  lastName : Option String

/-- The `- name: stepN` numbering loop over one stage's rendered steps. -/
def numberedStepLines : List String → Nat → List String
  | [], _ => []
  | l :: rest, stepCount =>
    indentLine ("- name: step" ++ goNatString stepCount) 3 :: l ::
      numberedStepLines rest (stepCount + 1)

/-- One iteration of the stage loop of `prOrReleasePipelineAsYAML`.  The
stage name has its spaces replaced by underscores (the Go code mutates the
shared stage in place; only the renamed value is read afterwards, in the
`needs` list of later stages, modelled by `lastName`/`needsPhase`).  The
`fmt.Println` debug print for lines starting with `|` has no effect on the
output and is not modelled. -/
def prStageStep (acc : PrLoopAcc) (s : ModelStage) : PrLoopAcc :=
  let name := goReplaceAll s.Name " " "_"
  let lines := acc.lines ++ [indentLine (name ++ ":") 1, indentLine "runs-on: ubuntu-latest" 2]
  let (lines, needsPhase) :=
    match acc.lastName with
    | none => (lines, acc.needsPhase)
    | some prev =>
      let needsPhase := acc.needsPhase ++ [prev]
      (lines ++ [indentLine "if: $\x7b\x7b always() \x7d\x7d" 2,
                 indentLine ("needs: [" ++ goJoin ", " needsPhase ++ "]") 2],
       needsPhase)
  let lines := lines ++
    [indentLine "steps: " 2,
     indentLine "# Checks-out your repository under $GITHUB_WORKSPACE, so your job can access it" 3,
     indentLine "- uses: actions/checkout@v3" 3]
  let rendered := s.toImageAndSteps (0 + 2)
  let stageSteps := rendered.2.1
  { lines := lines ++ numberedStepLines stageSteps 1
    conversionIssues := acc.conversionIssues || rendered.2.2
    envVars := dedupStageEnvStep acc.envVars s
    stepLines := acc.stepLines ++ stageSteps
    needsPhase := needsPhase
    lastName := some name }

/-- `prOrReleasePipelineAsYAML`.  `envIter` models the order in which
`for _, envVar := range envVars` walks the Go map: Go leaves that order
unspecified, so it is an explicit parameter here; it is meaningful whenever
it is a permutation of the accumulated `envVars` contents.  `isRelease` is
accepted and ignored, as in the source.  `none` models a panic (a
credential-valued environment entry dereferenced in `ToEnv`). -/
def prOrReleasePipelineAsYAML (stages : List ModelStage) (_isRelease : Bool)
    (envIter : List ModelEnvironmentEntry) : Option (String × Bool) :=
  let acc := stages.foldl prStageStep ⟨[], false, [], [], [], none⟩
  match toEnvYamlLines envIter with
  | none => none
  | some envYamlLines =>
    let lines := acc.lines ++
      (if envYamlLines.length > 0 then
        let realEnvLines := containsRealEnvLines envYamlLines
        let (hdr, envLineIndent) :=
          if realEnvLines then ([indentLine "environment:" 3], 0 + 4) else ([], 0 + 3)
        hdr ++ envYamlLines.map (fun l => indentLine l envLineIndent)
      else [])
    let (lines, conversionIssues) :=
      if acc.stepLines.isEmpty then
        (lines ++ [indentLine "# No stages were found that will be run." 1,
                   indentLine "- name: step0" 1,
                   indentLine "runs: echo 'No stages found, failing' && exit 1" 2],
         true)
      else (lines, acc.conversionIssues)
    some (goJoin "\n" lines, conversionIssues)

/-- The contents of the deduplicated stage-environment map a render of `m`
builds (insertion order); the map-iteration argument of `Model.ToYaml` is
meaningful when it is a permutation of this list. -/
def Model.envMapContents (m : Model) : List ModelEnvironmentEntry :=
  (((m.getStages).foldl stageLoopStep ⟨[], [], [], false⟩).prStages).foldl
    dedupStageEnvStep []

/-- `Model.ToYaml`.  Returns the YAML text and the conversion-issue flag;
`none` models a Go panic (nil-pointer dereference on a credential-valued
environment entry).  `envIter` is the map-iteration order passed through to
`prOrReleasePipelineAsYAML`.  The release job group is computed but not
rendered (the call is commented out in the source). -/
def Model.ToYaml (m : Model) (envIter : List ModelEnvironmentEntry) :
    Option (String × Bool) :=
  let lines := [indentLine "name: github-action.yaml file Created by m2ga" 0]
  match toEnvYamlLines m.getEnvironment with
  | none => none
  | some envLines =>
    let lines := lines ++
      (if envLines.length > 0 then
        let realEnvLines := containsRealEnvLines envLines
        let (hdr, envLineIndent) := if realEnvLines then ([indentLine "env:" 0], 1) else ([], 0)
        hdr ++ envLines.map (fun envLine => indentLine (goReplaceFirst envLine "- " "") envLineIndent)
      else [])
    let lines := lines ++ [indentLine "" 0]
    let lines := lines ++
      [indentLine "# setting github branch triggers: default-branch." 0,
       indentLine "# for customizing: please check https://docs.github.com/en/actions/using-workflows/workflow-syntax-for-github-actions#on" 0,
       indentLine "on:" 0]
    let lines := lines ++ (["push", "pull_request"].map (fun trigger =>
      [indentLine (trigger ++ ":") 1, indentLine "branches:" 2, indentLine "- master" 3])).flatten
    let lines := lines ++ [indentLine "jobs:" 0]
    let post := m.getPost
    let postFlag :=
      match post with
      | [] => false
      | [p] => !p.isDefaultCleanWs
      | _ => true
    let lines := lines ++
      (if postFlag then
        [indentLine "# The Jenkinsfile contains a post directive for its pipeline. This is not converted." 1]
      else [])
    let unsup := m.getUnsupported
    let lines := lines ++ unsup.map (fun u =>
      indentLine ("# The Jenkinsfile contains the " ++ u.Name ++ " directive for its pipeline. This is not converted.") 1)
    let conversionIssues := postFlag || unsup.length > 0
    let sAcc := (m.getStages).foldl stageLoopStep ⟨[], [], lines, conversionIssues⟩
    match prOrReleasePipelineAsYAML sAcc.prStages false envIter with
    | none => none
    | some (prLines, hasIssuesInPr) =>
      some (goJoin "\n" (sAcc.lines ++ [prLines]), sAcc.conversionIssues || hasIssuesInPr)

/-! ## The block scanner (`GetBlocks`) -/

/-- Go regexp `\w`: ASCII word characters. -/
def isWordChar (c : Char) : Bool :=
  ('a' ≤ c && c ≤ 'z') || ('A' ≤ c && c ≤ 'Z') || ('0' ≤ c && c ≤ '9') || c = '_'

/-- Go regexp `\s`: `[\t\n\f\r ]`. -/
def isReSpace (c : Char) : Bool :=
  c = '\t' || c = '\n' || c = '\x0c' || c = '\r' || c = ' '

/-- Matching `\s+\x7b` at the head of `l`: at least one space character and
then an opening curly brace; returns the number of characters consumed. -/
def trySpaceBrace (l : List Char) : Option Nat :=
  let sp := l.takeWhile isReSpace
  if sp.isEmpty then none
  else
    match l.drop sp.length with
    | '\x7b' :: _ => some (sp.length + 1)
    | _ => none

/-- Matching the lazy `\(.*?\)` group followed by `\s+\x7b` after an opening
parenthesis: try each closing parenthesis from the nearest on (`.` does not
cross newlines), backtracking as the regexp engine would.  `consumed` counts
the characters of `.*?` scanned so far. -/
def tryParenTail (consumed : Nat) : List Char → Option Nat
  | [] => none
  | c :: rest =>
    if c = ')' then
      match trySpaceBrace rest with
      | some k => some (consumed + 1 + k)
      | none => tryParenTail (consumed + 1) rest
    else if c = '\n' then none
    else tryParenTail (consumed + 1) rest

/-- Matching `(\w+)(\(.*?\))?\s+\x7b` at the head of `l` with Go's
(Perl-like, leftmost-first) semantics: the greedy `\w+` takes the maximal
word run (no shorter run can be followed by `(` or a space), then the
optional parenthesis group is tried before its absence.  Returns the total
match length and the word submatch. -/
def reMatchHead (l : List Char) : Option (Nat × List Char) :=
  let w := l.takeWhile isWordChar
  if w.isEmpty then none
  else
    let afterW := l.drop w.length
    let tail :=
      match afterW with
      | '(' :: rest =>
        match tryParenTail 0 rest with
        | some k => some (1 + k)
        | none => trySpaceBrace afterW
      | _ => trySpaceBrace afterW
    match tail with
    | some k => some (w.length + k, w)
    | none => none

/-- `FindAllStringSubmatchIndex` for the pattern above: successive
non-overlapping leftmost matches, each recorded as (start, end, word).
Fuel = input length + 1 (the scan advances at least one character per
step). -/
def reFindAllFuel : Nat → List Char → Nat → List (Nat × Nat × List Char)
  | 0, _, _ => []
  | _ + 1, [], _ => []
  | fuel + 1, c :: rest, pos =>
    match reMatchHead (c :: rest) with
    | some (len, w) => (pos, pos + len, w) :: reFindAllFuel fuel ((c :: rest).drop len) (pos + len)
    | none => reFindAllFuel fuel rest (pos + 1)

/-- `curlyBlock`: a named brace-delimited block with nested blocks. -/
inductive curlyBlock where
  | mk (Name : String) (Nested : List curlyBlock) (OriginalText : String)
       (ReplacementText : String)

/-- `toEscapedFromCurlyString`: drop the common indentation (learned from the
first line that has leading white space before non-space, with its first two
characters removed when longer than two), join the lines with the newline
placeholder and escape backticks. -/
def toEscapedFromCurlyString (curly : String) : String :=
  let step := fun (st : List Char × List (List Char)) (l : List Char) =>
    let wsPrefix := st.1
    let wsPrefix :=
      if l ≠ [] ∧ wsPrefix = [] then
        let sp := l.takeWhile isReSpace
        if sp.isEmpty ∨ (l.drop sp.length).isEmpty then wsPrefix
        else if sp.length > 2 then sp.drop 2 else sp
      else wsPrefix
    (wsPrefix, st.2 ++ [listTrimLeading l wsPrefix])
  let indentRemoved := ((splitChar '\n' (chars curly)).foldl step ([], [])).2
  let escaped := goJoin newlinePlaceholder (indentRemoved.map ofChars)
  goReplaceAll escaped "`" backtickPlaceholder

/-- The closing-brace scan of `GetBlocks`: walk the text after the opening
brace with a brace counter starting at 1; the result is the index at which
the counter reaches zero, and — like the Go `closingIndex` variable, an
`int` that keeps its zero value — `0` when it never does. -/
def findClosingCurly : List Char → Nat → Nat → Nat
  | [], _, _ => 0
  | c :: rest, count, idx =>
    let count := if c = '\x7b' then count + 1 else count
    let count := if c = '\x7d' then count - 1 else count
    if count = 0 then idx else findClosingCurly rest count (idx + 1)

/-- `GetBlocks`, fuel-indexed (the fuel bounds the nesting recursion; the
top-level wrapper supplies `length + 1`, which always suffices since each
nested call works on a strictly shorter text).  An `Except.error` models a
Go runtime panic: for an unterminated (or immediately-closed) block,
`closingIndex` keeps its zero value and the source slices
`fromCurly[:closingIndex+1]` (out of range when `fromCurly` is empty) and
`fromCurly[:closingIndex-1]` (the `int` expression `-1`, always out of
range). -/
def GetBlocksFuel : Nat → List Char → Except String (List curlyBlock)
  | 0, _ => .error "out of fuel"
  | fuel + 1, fullString =>
    let ms := reFindAllFuel (fullString.length + 1) fullString 0
    ms.foldl
      (fun acc m =>
        match acc with
        | .error e => .error e
        | .ok blocks =>
          let (mi0, mi1, w) := m
          let fromCurly := fullString.drop mi1
          let closingIndex := findClosingCurly fromCurly 1 0
          if closingIndex + 1 > fromCurly.length then
            .error "panic: slice bounds out of range"
          else
            let originalText := (fullString.drop mi0).take (mi1 - mi0) ++ fromCurly.take (closingIndex + 1)
            let replacementText := (fullString.drop mi0).take (mi1 - mi0 - 1) ++ ['`']
              ++ chars (toEscapedFromCurlyString (ofChars (fromCurly.take closingIndex))) ++ ['`']
            if closingIndex = 0 then
              .error "panic: slice bounds out of range"
            else
              match GetBlocksFuel fuel (fromCurly.take (closingIndex - 1)) with
              | .error e => .error e
              | .ok nested =>
                .ok (blocks ++ [curlyBlock.mk (ofChars w) nested (ofChars originalText)
                  (ofChars replacementText)]))
      (.ok [])

/-- `GetBlocks`. -/
def GetBlocks (fullString : String) : Except String (List curlyBlock) :=
  GetBlocksFuel ((chars fullString).length + 1) (chars fullString)

/-- The error, if any, of a `GetBlocks` run. -/
def getBlocksError (fullString : String) : Option String :=
  match GetBlocks fullString with
  | .error e => some e
  | .ok _ => none

/-! ## The quote/comment scanner (`escapeSingleQuotedOrMultilineStrings`) -/

/-- The lazy body of `(?s)'''(.*?)'''` (or the `"""` variant): the shortest
prefix of `l` before the next occurrence of `delim` (dot-all, so newlines
are allowed), together with the remainder after the closing delimiter. -/
def findDelim (delim : List Char) : List Char → Option (List Char × List Char)
  | [] => none
  | c :: rest =>
    if delim.isPrefixOf (c :: rest) then some ([], (c :: rest).drop delim.length)
    else
      match findDelim delim rest with
      | some (content, rem) => some (c :: content, rem)
      | none => none

/-- All captured bodies of successive non-overlapping `delim(.*?)delim`
matches, leftmost first (fuel = input length + 1; the scan advances at least
one character per step). -/
def findTriplesFuel (delim : List Char) : Nat → List Char → List (List Char)
  | 0, _ => []
  | _ + 1, [] => []
  | fuel + 1, c :: rest =>
    if delim.isPrefixOf (c :: rest) then
      match findDelim delim ((c :: rest).drop delim.length) with
      | some (content, rem) => content :: findTriplesFuel delim fuel rem
      | none => findTriplesFuel delim fuel rest
    else findTriplesFuel delim fuel rest

/-- The two triple-quote pre-passes: matches are collected on the current
text, then each is replaced everywhere by a single-quoted (resp.
double-quoted) escaped body wrapped in the multiline placeholder — the
double-quote pass too uses `multilineSingleQuotePlaceholder`, as the source
does. -/
def applyTripleReplacements (fullString : String) : String :=
  let sq := findTriplesFuel (chars "'''") ((chars fullString).length + 1) (chars fullString)
  let s1 := sq.foldl
    (fun s content =>
      goReplaceAll s ("'''" ++ ofChars content ++ "'''")
        ("'" ++ multilineSingleQuotePlaceholder ++ toEscapedFromCurlyString (ofChars content) ++
          multilineSingleQuotePlaceholder ++ "'"))
    fullString
  let dq := findTriplesFuel (chars "\"\"\"") ((chars s1).length + 1) (chars s1)
  dq.foldl
    (fun s content =>
      goReplaceAll s ("\"\"\"" ++ ofChars content ++ "\"\"\"")
        ("\"" ++ multilineSingleQuotePlaceholder ++ toEscapedFromCurlyString (ofChars content) ++
          multilineSingleQuotePlaceholder ++ "\""))
    s1

/-- The scanner state of the main character loop: the four mode flags, the
capture buffers for the current single-quoted string and its replacement,
the recorded (original, replacement) pairs, and the previous character
(Go's `fullString[i-1]` look-back; `none` at the first character). -/
structure SqState where
  inDoubleQuote : Bool
  inEscapeQuote : Bool
  inSingleLineComment : Bool
  inMultilineComment : Bool
  strInSingleQuote : List Char
  sqReplacement : List Char
  stringsToReplace : List (List Char × List Char)
  prev : Option Char

/-- One step of the scanner's `switch` over the current character,
transcribing the Go cases in order. -/
def sqScanStep (st : SqState) (c : Char) : SqState :=
  let st' :=
    if c = '/' then
      if !st.inEscapeQuote && !st.inDoubleQuote && st.prev = some '/' then
        { st with inSingleLineComment := true }
      else if !st.inEscapeQuote && !st.inDoubleQuote && st.prev = some '*' && st.inMultilineComment then
        { st with inMultilineComment := false }
      else if st.inEscapeQuote && !st.inMultilineComment then
        { st with strInSingleQuote := st.strInSingleQuote ++ ['/'],
                  sqReplacement := st.sqReplacement ++ ['/'] }
      else st
    else if c = '\n' then
      if st.inSingleLineComment then { st with inSingleLineComment := false }
      else if st.inEscapeQuote then
        { st with strInSingleQuote := st.strInSingleQuote ++ ['\n'],
                  sqReplacement := st.sqReplacement ++ chars newlinePlaceholder }
      else st
    else if c = '*' then
      if !st.inSingleLineComment && !st.inEscapeQuote && !st.inDoubleQuote &&
          !st.inMultilineComment && st.prev = some '/' then
        { st with inMultilineComment := true }
      else if st.inEscapeQuote && !st.inSingleLineComment then
        { st with strInSingleQuote := st.strInSingleQuote ++ ['*'],
                  sqReplacement := st.sqReplacement ++ ['*'] }
      else st
    else if c = '"' then
      if !st.inSingleLineComment && !st.inMultilineComment then
        if !st.inEscapeQuote && !st.inDoubleQuote then
          if st.prev ≠ some '\\' then { st with inDoubleQuote := true } else st
        else if !st.inEscapeQuote && st.inDoubleQuote then
          if st.prev ≠ some '\\' then { st with inDoubleQuote := false } else st
        else if st.inEscapeQuote then
          { st with strInSingleQuote := st.strInSingleQuote ++ ['"'],
                    sqReplacement := st.sqReplacement ++
                      (if st.prev = some '\\' then ['"'] else chars doubleQuotePlaceholder) }
        else st
      else st
    else if c = '\'' then
      if !st.inSingleLineComment && !st.inMultilineComment then
        if !st.inEscapeQuote && !st.inDoubleQuote then
          if st.prev ≠ some '\\' then
            { st with inEscapeQuote := true, strInSingleQuote := ['\''], sqReplacement := ['\''] }
          else st
        else if st.inEscapeQuote && !st.inDoubleQuote then
          let str := st.strInSingleQuote ++ ['\'']
          if st.prev ≠ some '\\' then
            { st with inEscapeQuote := false, strInSingleQuote := str,
                      sqReplacement := st.sqReplacement ++ ['\''],
                      stringsToReplace := st.stringsToReplace ++
                        [(str, st.sqReplacement ++ ['\''])] }
          else
            { st with strInSingleQuote := str,
                      sqReplacement := st.sqReplacement ++ ['\\'] ++ chars singleQuotePlaceholder }
        else st
      else st
    else
      if st.inEscapeQuote then
        { st with strInSingleQuote := st.strInSingleQuote ++ [c],
                  sqReplacement := st.sqReplacement ++ [c] }
      else st
  { st' with prev := some c }

/-- `escapeSingleQuotedOrMultilineStrings`: the triple-quote pre-passes, the
character scan, and the final global application of every recorded
original-to-replacement mapping. -/
def escapeSingleQuotedOrMultilineStrings (fullString : String) : String :=
  let fullString := applyTripleReplacements fullString
  let finalState := (chars fullString).foldl sqScanStep
    ⟨false, false, false, false, [], [], [], none⟩
  finalState.stringsToReplace.foldl
    (fun s p => goReplaceAll s (ofChars p.1) (ofChars p.2))
    fullString

/-! ## Spec-side lookup definitions (for the refinement claim about
"first populated entry wins") -/

/-- Modelled from the spec: "lookups of each entry category ... return the
first non-empty entry of that kind in document order, never a merge of all
entries of that kind". -/
def specFirstPopulated : List (List β) → List β
  | [] => []
  | l :: rest => if l.isEmpty then specFirstPopulated rest else l

/-- Modelled from the spec, for the pointer-typed category (`when`): the
first set entry of the kind in document order. -/
def specFirstSet : List (Option β) → Option β
  | [] => none
  | o :: rest =>
    match o with
    | some v => some v
    | none => specFirstSet rest

/-! ## Concrete instances used by the theorems -/

/-- A plain one-argument `sh` step. -/
def shStep (cmd : String) : ModelStep :=
  .mk "sh" [⟨some (.str cmd), none⟩] []

/-- A stage entry holding only steps. -/
def stepsEntry (steps : List ModelStep) : ModelStageEntry :=
  ⟨none, [], steps, [], none, []⟩

/-- A stage entry holding only a `when`. -/
def whenEntry (w : ModelWhen) : ModelStageEntry :=
  ⟨none, [], [], [], some w, []⟩

/-- A stage entry holding only environment entries. -/
def envEntry (es : List ModelEnvironmentEntry) : ModelStageEntry :=
  ⟨none, es, [], [], none, []⟩

/-- A pipeline whose single entry holds the given stages. -/
def stagesOnlyModel (stages : List ModelStage) : Model :=
  ⟨[⟨none, [], stages, [], []⟩]⟩

/-- The unsupported step `customStep(foo: 1)` of the spec's example, its
`foo:` value an `int64` allocated (in this model) at address 42. -/
def customStepFoo1 : ModelStep :=
  .mk "customStep" [⟨none, some ⟨"foo", Value.int 1 42⟩⟩] []

/-- A stage whose only step is `customStep(foo: 1)`. -/
def customStepStage : ModelStage :=
  ⟨"build", [stepsEntry [customStepFoo1]]⟩

/-- A stage guarded by an unsupported `when` condition (a `when` block whose
sole content is an escaped `expression` block, so `Branch` is empty and
`Unsupported` is populated). -/
def unsupportedWhenStage : ModelStage :=
  ⟨"checks", [whenEntry ⟨"", [⟨"expression", "env.BRANCH == master"⟩]⟩, stepsEntry [shStep "echo skip"]]⟩

/-- An unguarded stage with one translatable step. -/
def plainBuildStage : ModelStage :=
  ⟨"build", [stepsEntry [shStep "echo hi"]]⟩

/-- A model with one unsupported-`when` stage and one plain stage. -/
def unsupportedWhenModel : Model :=
  stagesOnlyModel [unsupportedWhenStage, plainBuildStage]

/-- A stage guarded by `when { branch 'master' }`. -/
def masterDeployStage : ModelStage :=
  ⟨"deploy", [whenEntry ⟨"master", []⟩, stepsEntry [shStep "make deploy"]]⟩

/-- A stage guarded by `when { branch 'PR-123' }`. -/
def prOnlyStage : ModelStage :=
  ⟨"verify", [whenEntry ⟨"PR-123", []⟩, stepsEntry [shStep "make verify"]]⟩

/-- A model whose only stage is guarded by `when { branch 'master' }`. -/
def masterOnlyModel : Model :=
  stagesOnlyModel [masterDeployStage]

/-- Two string-valued environment entries. -/
def envA : ModelEnvironmentEntry := ⟨"AA", ⟨some "xx", none⟩⟩
def envB : ModelEnvironmentEntry := ⟨"BB", ⟨some "yy", none⟩⟩

/-- A stage carrying two environment variables and a step. -/
def envStage : ModelStage :=
  ⟨"build", [envEntry [envA, envB], stepsEntry [shStep "echo hi"]]⟩

/-- A model with a two-variable stage environment. -/
def twoEnvModel : Model := stagesOnlyModel [envStage]

/-- A credential-valued environment entry `FOO = credentials("bar")`. -/
def credentialEnvEntry : ModelEnvironmentEntry := ⟨"FOO", ⟨none, some "bar"⟩⟩

/-- The `sh` step as the quote scanner's capture leaves it for the input
`sh 'echo "hi"\ndone'`: quotes and newline replaced by placeholders. -/
def escapedShStep : ModelStep :=
  shStep "echo ^^DOUBLEQUOTE^^hi^^DOUBLEQUOTE^^^^NEWLINE^^done"

/-- Whether the `when` dispatch adds a stage to the release partition. -/
def addedToRelease (t : ModelStage) : Bool :=
  match t.getWhen with
  | none => true
  | some w => w.Branch = "master"

/-- Whether the `when` dispatch adds a stage to the pull-request partition. -/
def addedToPr (t : ModelStage) : Bool :=
  match t.getWhen with
  | none => true
  | some w => !(w.Branch = "master") && goStartsWith w.Branch "PR-"

/-- A stage guarded by `when { branch 'develop' }`: a supported branch
condition that matches neither job group. -/
def developStage : ModelStage :=
  ⟨"nightly", [whenEntry ⟨"develop", []⟩, stepsEntry [shStep "make nightly"]]⟩

/-- A model whose single stage carries one environment variable. -/
def oneEnvModel : Model :=
  stagesOnlyModel [⟨"build", [envEntry [envA], stepsEntry [shStep "echo hi"]]⟩]

/-- A model whose pipeline-level environment holds the credential entry. -/
def credEnvModel : Model :=
  ⟨[⟨none, [credentialEnvEntry], [⟨"build", [stepsEntry [shStep "echo hi"]]⟩], [], []⟩]⟩

/-- A model whose every stage is dropped by its `when` guard. -/
def allDroppedModel : Model :=
  stagesOnlyModel [developStage]

/-! ## Helper lemmas -/

theorem firstWithLen_eq_spec (proj : α → List β) :
    ∀ l : List α, firstWithLen proj l = specFirstPopulated (l.map proj)
  | [] => rfl
  | e :: rest => by
    simp only [firstWithLen, specFirstPopulated, List.map]
    cases h : proj e with
    | nil => simp [firstWithLen_eq_spec proj rest]
    | cons b bs => simp

theorem firstWithSome_eq_spec (proj : α → Option β) :
    ∀ l : List α, firstWithSome proj l = specFirstSet (l.map proj)
  | [] => rfl
  | e :: rest => by
    simp only [firstWithSome, specFirstSet, List.map]
    cases proj e with
    | none => exact firstWithSome_eq_spec proj rest
    | some v => rfl

theorem stageWarnNotes_releaseStages (acc : StageLoopAcc) (t : ModelStage) :
    (stageWarnNotes acc t).releaseStages = acc.releaseStages := by
  simp only [stageWarnNotes]
  split <;> rfl

theorem stageWarnNotes_prStages (acc : StageLoopAcc) (t : ModelStage) :
    (stageWarnNotes acc t).prStages = acc.prStages := by
  simp only [stageWarnNotes]
  split <;> rfl

theorem stageLoopStep_releaseStages (acc : StageLoopAcc) (t : ModelStage) :
    (stageLoopStep acc t).releaseStages =
      acc.releaseStages ++ (if addedToRelease t then [t] else []) := by
  rcases hw : t.getWhen with _ | w
  · simp [stageLoopStep, stageWarnNotes_releaseStages, stageWhenDispatch, addedToRelease, hw]
  · by_cases hm : w.Branch = "master"
    · simp [stageLoopStep, stageWarnNotes_releaseStages, stageWhenDispatch, addedToRelease, hw, hm]
    · by_cases hp : goStartsWith w.Branch "PR-"
      · simp [stageLoopStep, stageWarnNotes_releaseStages, stageWhenDispatch, addedToRelease, hw, hm, hp]
      · by_cases hu : w.Unsupported.length > 0 <;>
          simp [stageLoopStep, stageWarnNotes_releaseStages, stageWhenDispatch, addedToRelease, hw, hm, hp, hu]

theorem stageLoopStep_prStages (acc : StageLoopAcc) (t : ModelStage) :
    (stageLoopStep acc t).prStages =
      acc.prStages ++ (if addedToPr t then [t] else []) := by
  rcases hw : t.getWhen with _ | w
  · simp [stageLoopStep, stageWarnNotes_prStages, stageWhenDispatch, addedToPr, hw]
  · by_cases hm : w.Branch = "master"
    · simp [stageLoopStep, stageWarnNotes_prStages, stageWhenDispatch, addedToPr, hw, hm]
    · by_cases hp : goStartsWith w.Branch "PR-"
      · simp [stageLoopStep, stageWarnNotes_prStages, stageWhenDispatch, addedToPr, hw, hm, hp]
      · by_cases hu : w.Unsupported.length > 0 <;>
          simp [stageLoopStep, stageWarnNotes_prStages, stageWhenDispatch, addedToPr, hw, hm, hp, hu]

theorem stageLoop_releaseStages_mem :
    ∀ (stages : List ModelStage) (acc : StageLoopAcc) (s : ModelStage),
      s ∈ (stages.foldl stageLoopStep acc).releaseStages ↔
        s ∈ acc.releaseStages ∨ (s ∈ stages ∧ addedToRelease s = true) := by
  intro stages
  induction stages with
  | nil => simp
  | cons t rest ih =>
    intro acc s
    rw [List.foldl_cons, ih]
    rw [stageLoopStep_releaseStages, List.mem_append]
    constructor
    · rintro ((h | h) | ⟨h1, h2⟩)
      · exact Or.inl h
      · rcases List.mem_ite_nil_right.mp h with ⟨hadd, heq⟩
        rcases List.mem_singleton.mp heq
        exact Or.inr ⟨List.mem_cons_self _ _, hadd⟩
      · exact Or.inr ⟨List.mem_cons_of_mem _ h1, h2⟩
    · rintro (h | ⟨h1, h2⟩)
      · exact Or.inl (Or.inl h)
      · rcases List.mem_cons.mp h1 with heq | hrest
        · subst heq
          exact Or.inl (Or.inr (by simp [h2]))
        · exact Or.inr ⟨hrest, h2⟩

theorem stageLoop_prStages_mem :
    ∀ (stages : List ModelStage) (acc : StageLoopAcc) (s : ModelStage),
      s ∈ (stages.foldl stageLoopStep acc).prStages ↔
        s ∈ acc.prStages ∨ (s ∈ stages ∧ addedToPr s = true) := by
  intro stages
  induction stages with
  | nil => simp
  | cons t rest ih =>
    intro acc s
    rw [List.foldl_cons, ih]
    rw [stageLoopStep_prStages, List.mem_append]
    constructor
    · rintro ((h | h) | ⟨h1, h2⟩)
      · exact Or.inl h
      · rcases List.mem_ite_nil_right.mp h with ⟨hadd, heq⟩
        rcases List.mem_singleton.mp heq
        exact Or.inr ⟨List.mem_cons_self _ _, hadd⟩
      · exact Or.inr ⟨List.mem_cons_of_mem _ h1, h2⟩
    · rintro (h | ⟨h1, h2⟩)
      · exact Or.inl (Or.inl h)
      · rcases List.mem_cons.mp h1 with heq | hrest
        · subst heq
          exact Or.inl (Or.inr (by simp [h2]))
        · exact Or.inr ⟨hrest, h2⟩

theorem imageFromContainerStep_maven (step : ModelStep)
    (h1 : step.Args.length ≠ 1)
    (h2 : ∀ a ∈ step.Args, ∀ na, a.Named = some na → na.Key ≠ "name") :
    imageFromContainerStep step = "maven" := by
  unfold imageFromContainerStep
  rw [if_neg h1]
  have hfind : step.Args.findSome? (fun a =>
      match a.Named with
      | some na => if na.Key = "name" then some na else none
      | none => none) = none := by
    rw [List.findSome?_eq_none_iff]
    intro a ha
    rcases hn : a.Named with _ | na
    · rfl
    · have : na.Key ≠ "name" := h2 a ha na hn
      simp [this]
  rw [hfind]

/-! ## Claim theorems -/

/-- C8: every entry-category lookup, at pipeline level and at stage level,
returns the first non-empty (resp. first set) entry of that kind in document
order — never a merge of all entries of that kind.  (There is no agent
lookup in the source at either level; the lookups that exist are all of this
shape.) -/
theorem lookups_return_first_populated_entry :
    (∀ m : Model,
      m.getPost = specFirstPopulated (m.Pipeline.map ModelPipelineEntry.Post) ∧
      m.getEnvironment = specFirstPopulated (m.Pipeline.map ModelPipelineEntry.Environment) ∧
      m.getStages = specFirstPopulated (m.Pipeline.map ModelPipelineEntry.Stages) ∧
      m.getUnsupported = specFirstPopulated (m.Pipeline.map ModelPipelineEntry.Unsupported)) ∧
    (∀ s : ModelStage,
      s.getEnvironment = specFirstPopulated (s.Entries.map ModelStageEntry.Environment) ∧
      s.getSteps = specFirstPopulated (s.Entries.map ModelStageEntry.Steps) ∧
      s.getPost = specFirstPopulated (s.Entries.map ModelStageEntry.Post) ∧
      s.getUnsupported = specFirstPopulated (s.Entries.map ModelStageEntry.Unsupported) ∧
      s.getWhen = specFirstSet (s.Entries.map ModelStageEntry.When)) :=
  ⟨fun m =>
    ⟨firstWithLen_eq_spec _ m.Pipeline, firstWithLen_eq_spec _ m.Pipeline,
     firstWithLen_eq_spec _ m.Pipeline, firstWithLen_eq_spec _ m.Pipeline⟩,
   fun s =>
    ⟨firstWithLen_eq_spec _ s.Entries, firstWithLen_eq_spec _ s.Entries,
     firstWithLen_eq_spec _ s.Entries, firstWithLen_eq_spec _ s.Entries,
     firstWithSome_eq_spec _ s.Entries⟩⟩

/-- C9: when the first top-level step of a stage is absent or not named
`container`, or is a `container` step with neither exactly one argument nor
a named argument keyed `name`, the stage default image resolves to the fixed
string `maven`. -/
theorem stage_default_image_is_maven (m : ModelStage) (ind : Nat)
    (h : ∀ s0, m.getSteps.head? = some s0 →
      s0.Name ≠ "container" ∨
        (s0.Args.length ≠ 1 ∧ ∀ a ∈ s0.Args, ∀ na, a.Named = some na → na.Key ≠ "name")) :
    (m.toImageAndSteps ind).1 = "maven" := by
  unfold ModelStage.toImageAndSteps
  rcases hs : m.getSteps with _ | ⟨s0, rest⟩
  · rfl
  · rcases h s0 (by rw [hs]; rfl) with hn | ⟨h1, h2⟩
    · simp [hn]
    · by_cases hc : s0.Name = "container"
      · simp [hc, imageFromContainerStep_maven s0 h1 h2]
      · simp [hc]

/-- C9 witness: the stage whose only step is `customStep(foo: 1)` (first
step not named `container`) resolves to the default image `maven`. -/
theorem stage_default_image_is_maven_witness :
    (customStepStage.toImageAndSteps 2).1 = "maven" :=
  stage_default_image_is_maven customStepStage 2 (fun s0 h => by
    have hs : s0 = customStepFoo1 := by
      have h' : some customStepFoo1 = some s0 := h
      exact (Option.some.inj h').symm
    subst hs
    exact Or.inl (by decide))

/-- C10: a stage guarded by a supported branch condition that names neither
`master` nor a `PR-` branch (and carries no unsupported condition) vanishes
silently: the `when` dispatch is a complete no-op for it (no job group, no
warning line, no flag change), it is a member of neither partition of any
stage list processed from an empty partition, and — when the stage carries
no `post` or unsupported entries of its own, which would emit their separate
warnings — its whole loop iteration leaves the accumulator untouched. -/
theorem unmatched_branch_stage_dropped_silently
    (acc : StageLoopAcc) (s : ModelStage) (w : ModelWhen)
    (hw : s.getWhen = some w) (hm : w.Branch ≠ "master")
    (hp : goStartsWith w.Branch "PR-" = false) (hu : w.Unsupported = []) :
    stageWhenDispatch acc s = acc ∧
    (∀ (stages : List ModelStage) (lines0 : List String) (issues0 : Bool),
      s ∉ (stages.foldl stageLoopStep ⟨[], [], lines0, issues0⟩).releaseStages ∧
      s ∉ (stages.foldl stageLoopStep ⟨[], [], lines0, issues0⟩).prStages) ∧
    (s.getPost = [] → s.getUnsupported = [] → stageLoopStep acc s = acc) := by
  have hrel : addedToRelease s = false := by
    simp [addedToRelease, hw, hm]
  have hpr : addedToPr s = false := by
    simp [addedToPr, hw, hp]
  refine ⟨?_, ?_, ?_⟩
  · simp [stageWhenDispatch, hw, hm, hp, hu]
  · intro stages lines0 issues0
    constructor
    · intro hmem
      rcases (stageLoop_releaseStages_mem stages _ s).mp hmem with h | ⟨_, h⟩
      · simp at h
      · rw [hrel] at h
        exact Bool.false_ne_true h
    · intro hmem
      rcases (stageLoop_prStages_mem stages _ s).mp hmem with h | ⟨_, h⟩
      · simp at h
      · rw [hpr] at h
        exact Bool.false_ne_true h
  · intro hpost huns
    simp [stageLoopStep, stageWhenDispatch, stageWarnNotes, hw, hm, hp, hu, hpost, huns]

/-- C10 witness: the `develop`-guarded stage satisfies the hypotheses, its
`when` dispatch and whole iteration leave a concrete accumulator untouched,
and it lands in neither partition of a singleton stage list. -/
theorem unmatched_branch_stage_dropped_silently_witness :
    developStage.getWhen = some ⟨"develop", []⟩ ∧
    ("develop" ≠ "master" ∧ goStartsWith "develop" "PR-" = false) ∧
    developStage.getPost = [] ∧
    stageLoopStep ⟨[], [], ["jobs:"], false⟩ developStage = ⟨[], [], ["jobs:"], false⟩ ∧
    developStage ∉ ([developStage].foldl stageLoopStep ⟨[], [], [], false⟩).prStages := by
  have h := unmatched_branch_stage_dropped_silently ⟨[], [], ["jobs:"], false⟩ developStage
    ⟨"develop", []⟩ (by decide) (by decide) (by decide) (by decide)
  exact ⟨by decide, ⟨by decide, by decide⟩, by rfl, h.2.2 (by rfl) (by rfl),
    (h.2.1 [developStage] [] false).2⟩

set_option maxRecDepth 4000000 in
/-- C3 counterexample: on the model whose only stage is guarded by
`when { branch 'master' }`, rendering succeeds but the stage appears nowhere
in the output YAML — the release job group the claim places it in is never
rendered (the release rendering call is commented out in the source), so
this stage does not "appear in the release job group of the output YAML". -/
theorem master_stage_absent_from_output_cex :
    masterDeployStage.getWhen = some ⟨"master", []⟩ ∧
    Model.ToYaml masterOnlyModel [] ≠ none ∧
    (Model.ToYaml masterOnlyModel []).map (fun p => goContains p.1 "deploy") = some false := by
  refine ⟨by decide, by decide, by decide⟩

/-- C3 (amended): the stage loop partitions stages by their `when` guard —
a stage with no `when` joins both the release and pull-request lists, a
`master`-guarded stage joins only the release list, and a `PR-`-prefixed
stage joins only the pull-request list — but only the pull-request list is
rendered into the output YAML, so release-only stages never reach it. -/
theorem stage_partition_by_when_guard
    (stages : List ModelStage) (lines0 : List String) (issues0 : Bool)
    (s : ModelStage) (hmem : s ∈ stages) :
    (s.getWhen = none →
      s ∈ (stages.foldl stageLoopStep ⟨[], [], lines0, issues0⟩).releaseStages ∧
      s ∈ (stages.foldl stageLoopStep ⟨[], [], lines0, issues0⟩).prStages) ∧
    (∀ w, s.getWhen = some w → w.Branch = "master" →
      s ∈ (stages.foldl stageLoopStep ⟨[], [], lines0, issues0⟩).releaseStages ∧
      s ∉ (stages.foldl stageLoopStep ⟨[], [], lines0, issues0⟩).prStages) ∧
    (∀ w, s.getWhen = some w → goStartsWith w.Branch "PR-" = true →
      s ∈ (stages.foldl stageLoopStep ⟨[], [], lines0, issues0⟩).prStages ∧
      s ∉ (stages.foldl stageLoopStep ⟨[], [], lines0, issues0⟩).releaseStages) := by
  refine ⟨?_, ?_, ?_⟩
  · intro hw
    have hrel : addedToRelease s = true := by simp [addedToRelease, hw]
    have hpr : addedToPr s = true := by simp [addedToPr, hw]
    exact ⟨(stageLoop_releaseStages_mem stages _ s).mpr (Or.inr ⟨hmem, hrel⟩),
           (stageLoop_prStages_mem stages _ s).mpr (Or.inr ⟨hmem, hpr⟩)⟩
  · intro w hw hmaster
    have hrel : addedToRelease s = true := by simp [addedToRelease, hw, hmaster]
    have hpr : addedToPr s = false := by simp [addedToPr, hw, hmaster]
    refine ⟨(stageLoop_releaseStages_mem stages _ s).mpr (Or.inr ⟨hmem, hrel⟩), ?_⟩
    intro hc
    rcases (stageLoop_prStages_mem stages _ s).mp hc with h | ⟨_, h⟩
    · simp at h
    · rw [hpr] at h
      exact Bool.false_ne_true h
  · intro w hw hprefix
    have hnotmaster : w.Branch ≠ "master" := by
      intro hb
      rw [hb] at hprefix
      exact absurd hprefix (by decide)
    have hpr : addedToPr s = true := by simp [addedToPr, hw, hnotmaster, hprefix]
    have hrel : addedToRelease s = false := by simp [addedToRelease, hw, hnotmaster]
    refine ⟨(stageLoop_prStages_mem stages _ s).mpr (Or.inr ⟨hmem, hpr⟩), ?_⟩
    intro hc
    rcases (stageLoop_releaseStages_mem stages _ s).mp hc with h | ⟨_, h⟩
    · simp at h
    · rw [hrel] at h
      exact Bool.false_ne_true h

/-- C3 witness: in the two-stage list of a `master`-guarded stage and a
`PR-123`-guarded stage, the former lands only in the release partition and
the latter only in the pull-request partition. -/
theorem stage_partition_by_when_guard_witness :
    masterDeployStage ∈
      ([masterDeployStage, prOnlyStage].foldl stageLoopStep ⟨[], [], [], false⟩).releaseStages ∧
    masterDeployStage ∉
      ([masterDeployStage, prOnlyStage].foldl stageLoopStep ⟨[], [], [], false⟩).prStages ∧
    prOnlyStage ∈
      ([masterDeployStage, prOnlyStage].foldl stageLoopStep ⟨[], [], [], false⟩).prStages ∧
    prOnlyStage ∉
      ([masterDeployStage, prOnlyStage].foldl stageLoopStep ⟨[], [], [], false⟩).releaseStages := by
  have h1 := (stage_partition_by_when_guard [masterDeployStage, prOnlyStage] [] false
    masterDeployStage (List.mem_cons_self _ _)).2.1 ⟨"master", []⟩ (by rfl) (by decide)
  have h2 := (stage_partition_by_when_guard [masterDeployStage, prOnlyStage] [] false
    prOnlyStage (by exact List.mem_cons_of_mem _ (List.mem_cons_self _ _))).2.2 ⟨"PR-123", []⟩
    (by rfl) (by decide)
  exact ⟨h1.1, h1.2, h2.1, h2.2⟩

theorem prOrRelease_nil_flag (envIter : List ModelEnvironmentEntry)
    (y : String) (b : Bool)
    (h : prOrReleasePipelineAsYAML [] false envIter = some (y, b)) : b = true := by
  rcases he : toEnvYamlLines envIter with _ | lines
  · simp [prOrReleasePipelineAsYAML, he] at h
  · simp [prOrReleasePipelineAsYAML, he] at h
    exact h.2

set_option maxRecDepth 4000000 in
/-- C2 counterexample: in the model holding one stage guarded by an
unsupported `when` condition (dropped from every job group) and one plain
stage with a translatable step, rendering returns the issue flag `false` —
the unsupported `when` path emits its warning comment without ever setting
the flag (grammar.go lines 202-206). -/
theorem unsupported_when_flag_stays_false_cex :
    unsupportedWhenStage.getWhen = some ⟨"", [⟨"expression", "env.BRANCH == master"⟩]⟩ ∧
    (∀ w, unsupportedWhenStage.getWhen = some w →
      w.Unsupported ≠ [] ∧ w.Branch ≠ "master" ∧ goStartsWith w.Branch "PR-" = false) ∧
    (Model.ToYaml unsupportedWhenModel []).map Prod.snd = some false := by
  refine ⟨by decide, ?_, by decide⟩
  intro w hw
  have : w = ⟨"", [⟨"expression", "env.BRANCH == master"⟩]⟩ := by
    have h' : some (⟨"", [⟨"expression", "env.BRANCH == master"⟩]⟩ : ModelWhen) = some w := hw
    exact (Option.some.inj h').symm
  subst this
  exact ⟨by decide, by decide, by decide⟩

/-- C2 (amended): the issue flag is set by non-trivial `post` blocks,
unsupported directives and untranslatable steps, and by a pull-request job
group that ends with zero steps; a stage dropped by an unsupported (or any
unmatched) `when` condition does not itself set the flag.  In particular,
when every stage is dropped by its `when` guard the pull-request group is
empty and the zero-step rule still forces the returned flag to `true`. -/
theorem all_stages_dropped_sets_issue_flag (m : Model)
    (envIter : List ModelEnvironmentEntry) (y : String) (b : Bool)
    (hdrop : ∀ s ∈ m.getStages, ∃ w, s.getWhen = some w ∧ w.Branch ≠ "master" ∧
      goStartsWith w.Branch "PR-" = false)
    (h : m.ToYaml envIter = some (y, b)) : b = true := by
  have hpr : ∀ (lines0 : List String) (issues0 : Bool),
      ((m.getStages).foldl stageLoopStep ⟨[], [], lines0, issues0⟩).prStages = [] := by
    intro lines0 issues0
    rw [List.eq_nil_iff_forall_not_mem]
    intro s hs
    rcases (stageLoop_prStages_mem _ _ s).mp hs with hh | ⟨hmem, hadd⟩
    · simp at hh
    · rcases hdrop s hmem with ⟨w, hw, hm, hp⟩
      have : addedToPr s = false := by simp [addedToPr, hw, hp]
      rw [this] at hadd
      exact Bool.false_ne_true hadd
  rcases he : toEnvYamlLines m.getEnvironment with _ | envLines
  · simp [Model.ToYaml, he] at h
  · simp only [Model.ToYaml, he] at h
    rw [hpr] at h
    rcases hp2 : prOrReleasePipelineAsYAML [] false envIter with _ | ⟨prLines, prIssue⟩
    · rw [hp2] at h
      cases h
    · rw [hp2] at h
      have hflag := prOrRelease_nil_flag envIter prLines prIssue hp2
      have hb : b = (_ || prIssue) := (Prod.mk.injEq _ _ _ _ |>.mp (Option.some.inj h).symm).2
      rw [hb, hflag, Bool.or_true]

/-- C2 witness: the model whose only stage is guarded by
`when { branch 'develop' }` satisfies the drop hypothesis, renders
successfully, and its returned flag is `true`. -/
theorem all_stages_dropped_sets_issue_flag_witness :
    (∀ s ∈ allDroppedModel.getStages, ∃ w, s.getWhen = some w ∧ w.Branch ≠ "master" ∧
      goStartsWith w.Branch "PR-" = false) ∧
    (Model.ToYaml allDroppedModel []).map Prod.snd = some true := by
  have hdrop : ∀ s ∈ allDroppedModel.getStages, ∃ w, s.getWhen = some w ∧
      w.Branch ≠ "master" ∧ goStartsWith w.Branch "PR-" = false := by
    intro s hs
    have : s = developStage := List.mem_singleton.mp hs
    subst this
    exact ⟨⟨"develop", []⟩, rfl, by decide, by decide⟩
  refine ⟨hdrop, ?_⟩
  rcases hy : Model.ToYaml allDroppedModel [] with _ | ⟨y, b⟩
  · exact absurd hy (by decide)
  · have := all_stages_dropped_sets_issue_flag allDroppedModel [] y b hdrop hy
    simp [this]

set_option maxRecDepth 4000000 in
/-- C6 counterexample: the deduplicated stage environment variables are
emitted by iterating a Go map, whose order is unspecified; with two
variables, the two possible iteration orders — both permutations of the
map's contents — yield different YAML texts, so two calls to render on the
same model value are not guaranteed byte-identical output. -/
theorem render_depends_on_env_map_order_cex :
    [envA, envB].Perm twoEnvModel.envMapContents ∧
    [envB, envA].Perm twoEnvModel.envMapContents ∧
    Model.ToYaml twoEnvModel [envA, envB] ≠ Model.ToYaml twoEnvModel [envB, envA] := by
  refine ⟨by decide, by decide, by decide⟩

/-- C6 (amended): rendering is a pure function of the model and of the
iteration order of the deduplicated stage-environment map; whenever that map
holds at most one entry — in particular whenever the model has no stage
environment at all — every admissible iteration order gives byte-identical
output, and per-group step numbering restarts at 1 on every call by
construction. -/
theorem render_deterministic_up_to_env_order (m : Model)
    (o1 o2 : List ModelEnvironmentEntry)
    (h1 : o1.Perm m.envMapContents) (h2 : o2.Perm m.envMapContents)
    (hlen : m.envMapContents.length ≤ 1) :
    m.ToYaml o1 = m.ToYaml o2 := by
  have heq : o1 = o2 := by
    rcases hd : m.envMapContents with _ | ⟨a, t⟩
    · rw [hd] at h1 h2
      rw [List.Perm.eq_nil h1, List.Perm.eq_nil h2]
    · rcases t with _ | ⟨b2, t2⟩
      · rw [hd] at h1 h2
        rw [List.perm_singleton.mp h1, List.perm_singleton.mp h2]
      · rw [hd] at hlen
        simp at hlen
  rw [heq]

/-- C6 witness: a model with a single stage-environment variable has a
one-entry map, and rendering with that single admissible order is
deterministic. -/
theorem render_deterministic_up_to_env_order_witness :
    [envA].Perm oneEnvModel.envMapContents ∧
    oneEnvModel.envMapContents.length ≤ 1 ∧
    Model.ToYaml oneEnvModel [envA] = Model.ToYaml oneEnvModel [envA] := by
  refine ⟨by decide, by decide,
    render_deterministic_up_to_env_order oneEnvModel [envA] [envA] (by decide) (by decide)
      (by decide)⟩

set_option maxRecDepth 4000000 in
/-- C1: on the invalid step `customStep(foo: 1)` the rendering does emit the
comment block, the generic reason, the forced-failure run line and a true
issue flag, but the "reproduced original call" comment prints the decimal
address of the `foo:` value's `int64` allocation (modelled as 42) instead of
the literal `1`: `Value.ToString` formats the pointer field with `%d`
(`fmt.Sprintf("%d", v.Int)`), which per the `fmt` documentation formats the
pointer itself as an integer.  The claimed reproduction `customStep(foo: 1)`
therefore never appears in the output. -/
theorem invalid_step_rendering_prints_pointer_address :
    ModelStage.toImageAndSteps customStepStage 2 =
      ("maven",
       [goJoin "\n"
         ["        # The Jenkins Pipeline step customStep cannot be translated directly.",
          "        # You may want to consider adding a shell script to your repository that replicates its behavior.",
          "        # Original step from Jenkinsfile:",
          "        # customStep(foo: 42)",
          "        run: echo 'Invalid step customStep, failing' && exit 1"]],
       true) ∧
    customStepFoo1.toOriginalGroovy = "customStep(foo: 42)" ∧
    customStepFoo1.toOriginalGroovy ≠ "customStep(foo: 1)" := by
  refine ⟨by decide, by decide, by decide⟩

set_option maxRecDepth 4000000 in
/-- C4: an environment entry whose value is a named credential reference is
neither translated nor marked untranslatable — there is no credential
handling at all in `ToEnv`, which instead dereferences the nil `StringValue`
pointer and panics (modelled by `none`), aborting the whole render of any
model that carries the entry. -/
theorem credential_env_entry_nil_dereference :
    ModelEnvironmentEntry.ToEnv credentialEnvEntry = none ∧
    toEnvYamlLines [credentialEnvEntry] = none ∧
    Model.ToYaml credEnvModel [] = none := by
  refine ⟨by decide, by decide, by decide⟩

set_option maxRecDepth 1000000 in
/-- C5: on an input whose identifier-headed opening brace is never closed,
the block scanner does not silently skip the block: `closingIndex` keeps its
zero value and the source slices `fromCurly[:closingIndex+1]` /
`fromCurly[:closingIndex-1]` out of range, a runtime panic (modelled as the
error result). -/
theorem getblocks_unterminated_block_panics :
    getBlocksError "pipeline \x7b" = some "panic: slice bounds out of range" := by
  decide

set_option maxRecDepth 1000000 in
/-- C7 counterexample: for the step captured from `sh 'echo "hi"\ndone'`
(the quote scanner having replaced the embedded quotes and newline by
placeholders), rendering yields a single `run:` line — not a multi-line
block scalar — and that line still contains the literal `^^NEWLINE^^`
placeholder in place of the claimed line break. -/
theorem single_quoted_newline_renders_single_line_cex :
    ModelStep.getJxArg escapedShStep = ["echo \"hi\"^^NEWLINE^^done"] ∧
    (ModelStep.getJxArg escapedShStep).length = 1 ∧
    goContains (goJoin "\n" (ModelStep.getJxArg escapedShStep)) "\n" = false := by
  refine ⟨by decide, by decide, by decide⟩

set_option maxRecDepth 1000000 in
/-- C7 (amended): the quote scanner captures the single-quoted argument of
`sh 'echo "hi"\ndone'` with its double quotes turned into
`^^DOUBLEQUOTE^^` and its newline into `^^NEWLINE^^` (no multiline
placeholder), and rendering turns any argument free of the two multiline
placeholders into a single line rather than a block scalar — multi-line
`run:` block scalars arise only from triple-quoted strings. -/
theorem single_quoted_newline_kept_as_placeholder :
    escapeSingleQuotedOrMultilineStrings "sh 'echo \"hi\"\ndone'"
      = "sh 'echo ^^DOUBLEQUOTE^^hi^^DOUBLEQUOTE^^^^NEWLINE^^done'" ∧
    (∀ a : String, goContains a multilineSingleQuotePlaceholder = false →
      goContains a multilineDoubleQuotePlaceholder = false →
      toMultilineQuote a = [a]) := by
  refine ⟨by decide, ?_⟩
  intro a hs hd
  simp [toMultilineQuote, hs, hd]

set_option maxRecDepth 1000000 in
/-- C7 witness: a placeholder-free argument passes through the multiline
rendering unchanged, as a single line. -/
theorem single_quoted_newline_kept_as_placeholder_witness :
    goContains "mvn clean install" multilineSingleQuotePlaceholder = false ∧
    toMultilineQuote "mvn clean install" = ["mvn clean install"] :=
  ⟨by decide,
   single_quoted_newline_kept_as_placeholder.2 "mvn clean install" (by decide) (by decide)⟩
